import Mathlib

set_option maxRecDepth 20000

/-!
Verification of the mtgox streaming client (Go sources `gox.go`,
`messages.go`, `trade_handler.go`) against its natural-language
specification.

The Go code is shallowly embedded as executable Lean definitions:

* JSON documents are modelled by the inductive `Json`; `parseJson` models
  the `encoding/json` scanner at the byte (character) level and
  `Json.render` models `json.Marshal`.  JSON numbers are modelled as exact
  integers obtained by truncating the decimal literal toward zero: the Go
  code stores wire numbers in a `float64` and every use in the sources
  (`time.Unix(int64(vv), 0)`) immediately truncates to whole seconds, and
  every numeric value appearing in the specification's scenarios is an
  integer below `2^53`, where the `float64` detour is exact.
* Byte strings (Go `[]byte`) are `List Nat`, each element a byte value.
* Channel sends are modelled as an `Effect` trace: the Go code publishes
  with a non-blocking `select`/`default`, so an effect records that a send
  was attempted (a full channel drops it; capacity is not modelled).
* Fallible Go functions return `Except String _` or pair their result
  with an `Option String` error, mirroring `(T, error)`.

All recursion is structural (fuel-based where the source recursion is not),
so every definition evaluates inside `decide`/`rfl` proofs.
-/

/-- JSON's structural delimiter characters, named once by code point and
reused throughout the scanner and renderer. -/
def quoteChar : Char := Char.ofNat 34

def backslashChar : Char := Char.ofNat 92

def lbraceChar : Char := Char.ofNat 123

def rbraceChar : Char := Char.ofNat 125

/-- JSON value tree, the target of `json.Unmarshal` into
`map[string]interface\x7b\x7d` and friends.  Object members keep their
textual order; Go's map keeps the last duplicate, which `dedupKeepLast`
reproduces where the sources build such a map. -/
inductive Json where
  | null : Json
  | bool (b : Bool) : Json
  | num (n : Int) : Json
  | str (s : String) : Json
  | arr (elems : List Json) : Json
  | obj (members : List (String × Json)) : Json

/-- Keep only the last occurrence of every key, preserving the relative
order of those last occurrences: the contents of the Go map built by
`json.Unmarshal` from an object literal. -/
def dedupKeepLast : List (String × Json) → List (String × Json)
  | [] => []
  | (k, v) :: rest =>
    if rest.any (fun p => p.1 == k) then dedupKeepLast rest
    else (k, v) :: dedupKeepLast rest

/-- Look a key up in a JSON object (Go `msg["id"]`); `none` is Go's nil
interface for a missing key and for non-objects. -/
def jsonLookup (j : Json) (k : String) : Option Json :=
  match j with
  | .obj members => (dedupKeepLast members).lookup k
  | _ => none

/-- Decimal digit characters. -/
def digitChar : Nat → Char
  | 0 => '0' | 1 => '1' | 2 => '2' | 3 => '3' | 4 => '4'
  | 5 => '5' | 6 => '6' | 7 => '7' | 8 => '8' | _ => '9'

def isDigitChar (c : Char) : Bool := 48 ≤ c.toNat && c.toNat ≤ 57

def hexDigitVal (c : Char) : Option Nat :=
  if 48 ≤ c.toNat && c.toNat ≤ 57 then some (c.toNat - 48)
  else if 97 ≤ c.toNat && c.toNat ≤ 102 then some (c.toNat - 87)
  else if 65 ≤ c.toNat && c.toNat ≤ 70 then some (c.toNat - 55)
  else none

/-- Decimal digits of `n`, most significant first (`strconv.FormatInt`
digit emission).  The fuel argument makes the recursion structural; fuel
`n + 1` always suffices. -/
def natCharsGo : Nat → Nat → List Char
  | 0, _ => []
  | fuel + 1, n =>
    if n < 10 then [digitChar n]
    else natCharsGo fuel (n / 10) ++ [digitChar (n % 10)]

def natChars (n : Nat) : List Char := natCharsGo (n + 1) n

/-- Model of `strconv.FormatInt(n, 10)` (also the `%d` verb): canonical
decimal, a leading minus for negative values. -/
def formatInt64 (n : Int) : String :=
  if n < 0 then String.mk ('-' :: natChars (-n).toNat)
  else String.mk (natChars n.toNat)

/-- Numeric value of a digit string, most significant first. -/
def digitsVal (cs : List Char) : Nat :=
  cs.foldl (fun a c => a * 10 + (c.toNat - 48)) 0

def parseDigits (cs : List Char) : Option Nat :=
  if !cs.isEmpty && cs.all isDigitChar then some (digitsVal cs) else none

/-- Model of `strconv.ParseInt(s, 10, 64)`: optional single sign, decimal
digits, signed 64-bit range check.  Error strings are abbreviated; the Go
errors wrap `ErrSyntax`/`ErrRange` and the sources never inspect them. -/
def parseInt64Chars : List Char → Except String Int
  | [] => .error "invalid syntax"
  | c :: rest =>
    let ds := if c = '+' ∨ c = '-' then rest else c :: rest
    match parseDigits ds with
    | none => .error "invalid syntax"
    | some un =>
      if c = '-' then
        if 2 ^ 63 < un then .error "value out of range"
        else .ok (-(un : Int))
      else
        if 2 ^ 63 ≤ un then .error "value out of range"
        else .ok (un : Int)

def parseInt64 (s : String) : Except String Int := parseInt64Chars s.data

/-! ## Byte-level JSON scanning (`encoding/json`)

`parseValue` models the stdlib scanner used by every `json.Unmarshal` in
the sources.  The fuel argument keeps the recursion structural; the
initial fuel (input length plus a constant) always suffices because each
recursive call consumes at least one character, mirroring Go's only limit
(a nesting-depth cap).  `\uXXXX` escapes are decoded without surrogate
pairing and out-of-float-range exponents are approximated by a `±400`
exponent guard; neither corner is reachable from the claims. -/

def skipWs : List Char → List Char
  | [] => []
  | c :: rest =>
    if c = ' ' || c = '\t' || c = '\n' || c = '\r' then skipWs rest
    else c :: rest

def expectChars : List Char → List Char → Option (List Char)
  | [], cs => some cs
  | _ :: _, [] => none
  | l :: ls, c :: cs => if c = l then expectChars ls cs else none

def escChar (e : Char) : Option Char :=
  if e = quoteChar then some quoteChar
  else if e = backslashChar then some backslashChar
  else if e = '/' then some '/'
  else if e = 'b' then some (Char.ofNat 8)
  else if e = 'f' then some (Char.ofNat 12)
  else if e = 'n' then some '\n'
  else if e = 'r' then some '\r'
  else if e = 't' then some '\t'
  else none

def parseStringBody : Nat → List Char → Except String (List Char × List Char)
  | 0, _ => .error "string too long"
  | _ + 1, [] => .error "unexpected end of JSON input"
  | fuel + 1, c :: rest =>
    if c = quoteChar then .ok ([], rest)
    else if c = backslashChar then
      match rest with
      | [] => .error "unexpected end of JSON input"
      | e :: rest2 =>
        match escChar e with
        | some ec =>
          match parseStringBody fuel rest2 with
          | .ok (cs, r) => .ok (ec :: cs, r)
          | .error err => .error err
        | none =>
          if e = 'u' then
            match rest2 with
            | h1 :: h2 :: h3 :: h4 :: rest3 =>
              match hexDigitVal h1, hexDigitVal h2, hexDigitVal h3, hexDigitVal h4 with
              | some a, some b, some c3, some d =>
                match parseStringBody fuel rest3 with
                | .ok (cs, r) =>
                  .ok (Char.ofNat (4096 * a + 256 * b + 16 * c3 + d) :: cs, r)
                | .error err => .error err
              | _, _, _, _ => .error "invalid unicode escape"
            | _ => .error "invalid unicode escape"
          else .error "invalid escape"
    else if c.toNat < 32 then .error "invalid control character in string"
    else
      match parseStringBody fuel rest with
      | .ok (cs, r) => .ok (c :: cs, r)
      | .error err => .error err

def mkNum (neg : Bool) (intDigits fracDigits : List Char) (e : Int)
    (rest : List Char) : Except String (Json × List Char) :=
  if e > 400 || e < -400 then .error "number out of range"
  else
    let scale : Int := e - fracDigits.length
    let m := digitsVal (intDigits ++ fracDigits)
    let mag : Nat := if 0 ≤ scale then m * 10 ^ scale.toNat else m / 10 ^ (-scale).toNat
    .ok (.num (if neg then -(mag : Int) else (mag : Int)), rest)

def parseNumExp (neg : Bool) (intDigits fracDigits : List Char) :
    List Char → Except String (Json × List Char)
  | e :: rest =>
    if e = 'e' || e = 'E' then
      let (esign, rest2) :=
        match rest with
        | s :: sr => if s = '+' then (false, sr) else if s = '-' then (true, sr) else (false, rest)
        | [] => (false, rest)
      let (ed, r3) := rest2.span isDigitChar
      if ed.isEmpty then .error "invalid number"
      else
        mkNum neg intDigits fracDigits
          (if esign then -(digitsVal ed : Int) else (digitsVal ed : Int)) r3
    else mkNum neg intDigits fracDigits 0 (e :: rest)
  | [] => mkNum neg intDigits fracDigits 0 []

def parseNumber (cs : List Char) : Except String (Json × List Char) :=
  match cs with
  | [] => .error "invalid number"
  | c :: rest =>
    let neg := c = '-'
    let cs1 := if c = '-' then rest else c :: rest
    match cs1 with
    | [] => .error "invalid number"
    | d :: dr =>
      if !isDigitChar d then .error "invalid number"
      else
        let (intDigits, r1) := if d = '0' then ([d], dr) else (d :: dr).span isDigitChar
        match r1 with
        | p :: pr =>
          if p = '.' then
            let (fd, r2) := pr.span isDigitChar
            if fd.isEmpty then .error "invalid number"
            else parseNumExp neg intDigits fd r2
          else parseNumExp neg intDigits [] r1
        | [] => parseNumExp neg intDigits [] r1

/-- Parse one JSON value.  Object and array tails are parsed by recursing
on a reconstructed smaller document (a `\x7b`/`[` prepended to the
remaining members), which keeps the whole scanner one structurally
recursive function; trailing commas are rejected beforehand, so the
accepted language is unchanged. -/
def parseValue : Nat → List Char → Except String (Json × List Char)
  | 0, _ => .error "exceeded max depth"
  | fuel + 1, cs0 =>
    match skipWs cs0 with
    | [] => .error "unexpected end of JSON input"
    | c :: rest =>
      if c = quoteChar then
        match parseStringBody (rest.length + 1) rest with
        | .error e => .error e
        | .ok (body, r) => .ok (.str (String.mk body), r)
      else if c = lbraceChar then
        match skipWs rest with
        | [] => .error "unexpected end of JSON input"
        | d :: rest2 =>
          if d = rbraceChar then .ok (.obj [], rest2)
          else if d = quoteChar then
            match parseStringBody (rest2.length + 1) rest2 with
            | .error e => .error e
            | .ok (keyChars, r1) =>
              match skipWs r1 with
              | ':' :: r2 =>
                match parseValue fuel r2 with
                | .error e => .error e
                | .ok (v, r3) =>
                  match skipWs r3 with
                  | [] => .error "unexpected end of JSON input"
                  | e :: r4 =>
                    if e = ',' then
                      match skipWs r4 with
                      | [] => .error "unexpected end of JSON input"
                      | e2 :: r5 =>
                        if e2 = quoteChar then
                          match parseValue fuel (lbraceChar :: e2 :: r5) with
                          | .ok (.obj ms, r6) =>
                            .ok (.obj ((String.mk keyChars, v) :: ms), r6)
                          | .ok _ => .error "invalid object"
                          | .error err => .error err
                        else .error "invalid character looking for object key"
                    else if e = rbraceChar then .ok (.obj [(String.mk keyChars, v)], r4)
                    else .error "invalid character after object member"
              | _ => .error "invalid character after object key"
          else .error "invalid character looking for object key"
      else if c = '[' then
        match skipWs rest with
        | [] => .error "unexpected end of JSON input"
        | d :: rest2 =>
          if d = ']' then .ok (.arr [], rest2)
          else
            match parseValue fuel (d :: rest2) with
            | .error e => .error e
            | .ok (v, r1) =>
              match skipWs r1 with
              | [] => .error "unexpected end of JSON input"
              | e :: r2 =>
                if e = ',' then
                  match skipWs r2 with
                  | [] => .error "unexpected end of JSON input"
                  | e2 :: r3 =>
                    if e2 = ']' then .error "invalid character in array"
                    else
                      match parseValue fuel ('[' :: e2 :: r3) with
                      | .ok (.arr es, r4) => .ok (.arr (v :: es), r4)
                      | .ok _ => .error "invalid array"
                      | .error err => .error err
                else if e = ']' then .ok (.arr [v], r2)
                else .error "invalid character after array element"
      else if c = 'n' then
        match expectChars "ull".data rest with
        | some r => .ok (.null, r)
        | none => .error "invalid literal"
      else if c = 't' then
        match expectChars "rue".data rest with
        | some r => .ok (.bool true, r)
        | none => .error "invalid literal"
      else if c = 'f' then
        match expectChars "alse".data rest with
        | some r => .ok (.bool false, r)
        | none => .error "invalid literal"
      else if c = '-' || isDigitChar c then parseNumber (c :: rest)
      else .error "invalid character"

/-- Model of `json.Unmarshal`'s whole-document contract: one value plus
optional trailing whitespace. -/
def parseJson (s : String) : Except String Json :=
  match parseValue (s.data.length + 8) s.data with
  | .error e => .error e
  | .ok (j, rest) =>
    if (skipWs rest).isEmpty then .ok j
    else .error "invalid character after top-level value"

/-! ## Rendering (`json.Marshal`)

Members are rendered in list order; the Go map-based bodies have their
keys sorted by `json.Marshal`, so concrete message values below are built
already sorted.  HTML escaping (`<`, `>`, `&`) follows the encoder's
default. -/

def hexLowerChar (d : Nat) : Char :=
  if d < 10 then digitChar d
  else if d = 10 then 'a'
  else if d = 11 then 'b'
  else if d = 12 then 'c'
  else if d = 13 then 'd'
  else if d = 14 then 'e'
  else 'f'

def uEscape (n : Nat) : List Char :=
  [backslashChar, 'u', hexLowerChar (n / 4096 % 16), hexLowerChar (n / 256 % 16),
   hexLowerChar (n / 16 % 16), hexLowerChar (n % 16)]

def jsonEscapeChar (c : Char) : List Char :=
  if c = quoteChar then [backslashChar, quoteChar]
  else if c = backslashChar then [backslashChar, backslashChar]
  else if c = '\n' then [backslashChar, 'n']
  else if c = '\r' then [backslashChar, 'r']
  else if c = '\t' then [backslashChar, 't']
  else if c.toNat < 32 || c = '<' || c = '>' || c = '&' || c.toNat = 8232 || c.toNat = 8233 then
    uEscape c.toNat
  else [c]

def renderStringChars (s : String) : List Char :=
  quoteChar :: (s.data.map jsonEscapeChar).flatten ++ [quoteChar]

def commaJoin : List (List Char) → List Char
  | [] => []
  | [x] => x
  | x :: rest => x ++ ',' :: commaJoin rest

def renderJsonFuel : Nat → Json → List Char
  | 0, _ => []
  | fuel + 1, j =>
    match j with
    | .null => "null".data
    | .bool true => "true".data
    | .bool false => "false".data
    | .num n => (formatInt64 n).data
    | .str s => renderStringChars s
    | .arr elems => '[' :: commaJoin (elems.map (renderJsonFuel fuel)) ++ [']']
    | .obj ms =>
      lbraceChar ::
        commaJoin (ms.map (fun kv => renderStringChars kv.1 ++ ':' :: renderJsonFuel fuel kv.2)) ++
        [rbraceChar]

/-- Nesting-depth cap: `encoding/json` refuses documents nested deeper
than 10000, so every JSON value the client ever handles fits. -/
def jsonDepthCap : Nat := 10000

def Json.render (j : Json) : String := String.mk (renderJsonFuel jsonDepthCap j)

/-- UTF-8 bytes of a string (Go strings are UTF-8 byte slices). -/
def charUtf8 (c : Char) : List Nat :=
  let n := c.toNat
  if n < 128 then [n]
  else if n < 2048 then [192 + n / 64, 128 + n % 64]
  else if n < 65536 then [224 + n / 4096, 128 + n / 64 % 64, 128 + n % 64]
  else [240 + n / 262144, 128 + n / 4096 % 64, 128 + n / 64 % 64, 128 + n % 64]

def strBytes (s : String) : List Nat := (s.data.map charUtf8).flatten

/-! ## Credential decoding (`encoding/hex`, `encoding/base64`) -/

def hexDecodeChars : List Char → Except String (List Nat)
  | [] => .ok []
  | [_] => .error "odd length hex string"
  | a :: b :: rest =>
    match hexDigitVal a, hexDigitVal b with
    | some x, some y =>
      match hexDecodeChars rest with
      | .ok bs => .ok ((16 * x + y) :: bs)
      | .error e => .error e
    | _, _ => .error "invalid hex byte"

/-- Model of `hex.DecodeString`; note that the empty string decodes to the
empty (non-nil) byte slice with no error. -/
def hexDecodeString (s : String) : Except String (List Nat) := hexDecodeChars s.data

def b64Alphabet : List Char :=
  "ABCDEFGHIJKLMNOPQRSTUVWXYZabcdefghijklmnopqrstuvwxyz0123456789+/".data

def b64CharOf (n : Nat) : Char := b64Alphabet.getD n 'A'

def b64CharVal (c : Char) : Option Nat :=
  if 65 ≤ c.toNat && c.toNat ≤ 90 then some (c.toNat - 65)
  else if 97 ≤ c.toNat && c.toNat ≤ 122 then some (c.toNat - 71)
  else if 48 ≤ c.toNat && c.toNat ≤ 57 then some (c.toNat + 4)
  else if c = '+' then some 62
  else if c = '/' then some 63
  else none

def base64DecodeQuads : List Char → Except String (List Nat)
  | [] => .ok []
  | a :: b :: c :: d :: rest =>
    match b64CharVal a, b64CharVal b with
    | some va, some vb =>
      if c = '=' then
        if d = '=' && rest.isEmpty then .ok [va * 4 + vb / 16]
        else .error "corrupt input"
      else
        match b64CharVal c with
        | some vc =>
          if d = '=' then
            if rest.isEmpty then .ok [va * 4 + vb / 16, vb % 16 * 16 + vc / 4]
            else .error "corrupt input"
          else
            match b64CharVal d with
            | some vd =>
              match base64DecodeQuads rest with
              | .ok bs =>
                .ok ((va * 4 + vb / 16) :: (vb % 16 * 16 + vc / 4) :: (vc % 4 * 64 + vd) :: bs)
              | .error e => .error e
            | none => .error "corrupt input"
        | none => .error "corrupt input"
    | _, _ => .error "corrupt input"
  | _ => .error "corrupt input"

/-- Model of `base64.StdEncoding.DecodeString` (newlines skipped, padding
required, the empty string decodes to the empty non-nil slice). -/
def base64DecodeString (s : String) : Except String (List Nat) :=
  base64DecodeQuads (s.data.filter (fun c => c != '\n' && c != '\r'))

def base64Encode : List Nat → List Char
  | b0 :: b1 :: b2 :: rest =>
    b64CharOf (b0 / 4) :: b64CharOf (b0 % 4 * 16 + b1 / 16) ::
      b64CharOf (b1 % 16 * 4 + b2 / 64) :: b64CharOf (b2 % 64) :: base64Encode rest
  | [b0, b1] => [b64CharOf (b0 / 4), b64CharOf (b0 % 4 * 16 + b1 / 16), b64CharOf (b1 % 16 * 4), '=']
  | [b0] => [b64CharOf (b0 / 4), b64CharOf (b0 % 4 * 16), '=', '=']
  | [] => []

/-- Model of `base64.StdEncoding.EncodeToString`. -/
def base64EncodeString (bs : List Nat) : String := String.mk (base64Encode bs)

/-! ## SHA-512 and HMAC (`crypto/sha512`, `crypto/hmac`)

A faithful FIPS 180-4 implementation over bytes-as-`Nat`.  The round
constants and initial hash words are computed from the fractional parts of
the cube and square roots of the first primes, exactly as the standard
defines them, instead of being transcribed. -/

def rotr64 (x n : Nat) : Nat := ((x >>> n) ||| (x <<< (64 - n))) % 2 ^ 64

def bigSigma0 (x : Nat) : Nat := rotr64 x 28 ^^^ rotr64 x 34 ^^^ rotr64 x 39

def bigSigma1 (x : Nat) : Nat := rotr64 x 14 ^^^ rotr64 x 18 ^^^ rotr64 x 41

def smallSigma0 (x : Nat) : Nat := rotr64 x 1 ^^^ rotr64 x 8 ^^^ (x >>> 7)

def smallSigma1 (x : Nat) : Nat := rotr64 x 19 ^^^ rotr64 x 61 ^^^ (x >>> 6)

def chFn (x y z : Nat) : Nat := (x &&& y) ^^^ ((x ^^^ (2 ^ 64 - 1)) &&& z)

def majFn (x y z : Nat) : Nat := (x &&& y) ^^^ (x &&& z) ^^^ (y &&& z)

def isPrimeNat (n : Nat) : Bool :=
  decide (2 ≤ n) && (List.range n).all (fun d => decide (d < 2) || n % d != 0)

def firstPrimes (k : Nat) : List Nat := ((List.range 512).filter isPrimeNat).take k

/-- Integer cube root by bisection (`fuel` 256 covers every input used). -/
def icbrtGo (n : Nat) : Nat → Nat → Nat → Nat
  | 0, lo, _ => lo
  | fuel + 1, lo, hi =>
    if hi ≤ lo + 1 then lo
    else
      let mid := (lo + hi) / 2
      if mid ^ 3 ≤ n then icbrtGo n fuel mid hi else icbrtGo n fuel lo mid

def icbrt (n : Nat) : Nat := icbrtGo n 256 0 (n + 1)

/-- First 64 bits of the fractional part of the cube root of `p`. -/
def fracCbrt64 (p : Nat) : Nat := icbrt (p * 2 ^ 192) % 2 ^ 64

/-- First 64 bits of the fractional part of the square root of `p`. -/
def fracSqrt64 (p : Nat) : Nat := Nat.sqrt (p * 2 ^ 128) % 2 ^ 64

def sha512K : List Nat := (firstPrimes 80).map fracCbrt64

def sha512H0 : List Nat := (firstPrimes 8).map fracSqrt64

structure Sha512State where
  a : Nat
  b : Nat
  c : Nat
  d : Nat
  e : Nat
  f : Nat
  g : Nat
  h : Nat

def initSha512State : Sha512State :=
  ⟨sha512H0.getD 0 0, sha512H0.getD 1 0, sha512H0.getD 2 0, sha512H0.getD 3 0,
   sha512H0.getD 4 0, sha512H0.getD 5 0, sha512H0.getD 6 0, sha512H0.getD 7 0⟩

def sha512Round (st : Sha512State) (kw : Nat × Nat) : Sha512State :=
  let t1 := (st.h + bigSigma1 st.e + chFn st.e st.f st.g + kw.1 + kw.2) % 2 ^ 64
  let t2 := (bigSigma0 st.a + majFn st.a st.b st.c) % 2 ^ 64
  ⟨(t1 + t2) % 2 ^ 64, st.a, st.b, st.c, (st.d + t1) % 2 ^ 64, st.e, st.f, st.g⟩

/-- Extend the 16 message words (held in reverse) by `k` schedule words. -/
def extendSchedule : Nat → List Nat → List Nat
  | 0, acc => acc
  | k + 1, acc =>
    extendSchedule k
      ((smallSigma1 (acc.getD 1 0) + acc.getD 6 0 + smallSigma0 (acc.getD 14 0) + acc.getD 15 0)
          % 2 ^ 64 :: acc)

def msgSchedule (block : List Nat) : List Nat := (extendSchedule 64 block.reverse).reverse

def addState (x y : Sha512State) : Sha512State :=
  ⟨(x.a + y.a) % 2 ^ 64, (x.b + y.b) % 2 ^ 64, (x.c + y.c) % 2 ^ 64, (x.d + y.d) % 2 ^ 64,
   (x.e + y.e) % 2 ^ 64, (x.f + y.f) % 2 ^ 64, (x.g + y.g) % 2 ^ 64, (x.h + y.h) % 2 ^ 64⟩

def processBlock (st : Sha512State) (block : List Nat) : Sha512State :=
  addState st (((sha512K.zip (msgSchedule block)).foldl sha512Round st))

def bytesToWord (bs : List Nat) : Nat := bs.foldl (fun a b => a * 256 + b) 0

def chunksOf8 : List Nat → List (List Nat)
  | b0 :: b1 :: b2 :: b3 :: b4 :: b5 :: b6 :: b7 :: rest =>
    [b0, b1, b2, b3, b4, b5, b6, b7] :: chunksOf8 rest
  | _ => []

def chunksOf16 : List Nat → List (List Nat)
  | w0 :: w1 :: w2 :: w3 :: w4 :: w5 :: w6 :: w7 :: w8 :: w9 :: w10 :: w11 :: w12 :: w13 :: w14
      :: w15 :: rest =>
    [w0, w1, w2, w3, w4, w5, w6, w7, w8, w9, w10, w11, w12, w13, w14, w15] :: chunksOf16 rest
  | _ => []

def lenBytes16 (n : Nat) : List Nat :=
  [(n >>> 120) % 256, (n >>> 112) % 256, (n >>> 104) % 256, (n >>> 96) % 256,
   (n >>> 88) % 256, (n >>> 80) % 256, (n >>> 72) % 256, (n >>> 64) % 256,
   (n >>> 56) % 256, (n >>> 48) % 256, (n >>> 40) % 256, (n >>> 32) % 256,
   (n >>> 24) % 256, (n >>> 16) % 256, (n >>> 8) % 256, n % 256]

def sha512Pad (msg : List Nat) : List Nat :=
  msg ++ 128 :: List.replicate ((239 - msg.length % 128) % 128) 0 ++ lenBytes16 (8 * msg.length)

def wordBytes (x : Nat) : List Nat :=
  [(x >>> 56) % 256, (x >>> 48) % 256, (x >>> 40) % 256, (x >>> 32) % 256,
   (x >>> 24) % 256, (x >>> 16) % 256, (x >>> 8) % 256, x % 256]

def sha512Digest (st : Sha512State) : List Nat :=
  wordBytes st.a ++ wordBytes st.b ++ wordBytes st.c ++ wordBytes st.d ++
    wordBytes st.e ++ wordBytes st.f ++ wordBytes st.g ++ wordBytes st.h

def sha512 (msg : List Nat) : List Nat :=
  sha512Digest
    ((chunksOf16 ((chunksOf8 (sha512Pad msg)).map bytesToWord)).foldl processBlock initSha512State)

/-- Model of `hmac.New(sha512.New, key)` followed by `Write`/`Sum`:
RFC 2104 with block size 128. -/
def hmacSha512 (key msg : List Nat) : List Nat :=
  let k0 := if 128 < key.length then sha512 key else key
  let kp := k0 ++ List.replicate (128 - k0.length) 0
  sha512 (kp.map (fun b => b ^^^ 92) ++ sha512 (kp.map (fun b => b ^^^ 54) ++ msg))

/-! ## `messages.go`: `SimpleTime`

`time.Time` is modelled as the civil tuple the fixed layout
`2006-01-02 15:04:05` determines (no zone in the layout, hence UTC). -/

structure SimpleTime where
  year : Nat
  month : Nat
  day : Nat
  hour : Nat
  minute : Nat
  second : Nat
deriving DecidableEq

def get2Digits : List Char → Except String (Nat × List Char)
  | a :: b :: rest =>
    if isDigitChar a && isDigitChar b then .ok ((a.toNat - 48) * 10 + (b.toNat - 48), rest)
    else .error "cannot parse"
  | _ => .error "cannot parse"

def get4Digits : List Char → Except String (Nat × List Char)
  | a :: b :: c :: d :: rest =>
    if isDigitChar a && isDigitChar b && isDigitChar c && isDigitChar d then
      .ok (digitsVal [a, b, c, d], rest)
    else .error "cannot parse"
  | _ => .error "cannot parse"

def expectChar (c : Char) : List Char → Except String (List Char)
  | x :: rest => if x = c then .ok rest else .error "cannot parse"
  | [] => .error "cannot parse"

def isLeapYear (y : Nat) : Bool := y % 4 == 0 && (y % 100 != 0 || y % 400 == 0)

def daysInMonth (y m : Nat) : Nat :=
  if m = 2 then (if isLeapYear y then 29 else 28)
  else if m = 4 || m = 6 || m = 9 || m = 11 then 30
  else 31

/-- Model of `time.Parse("2006-01-02 15:04:05", s)`: the fixed layout
demands zero-padded two-digit fields, a four-digit year, the literal
separators, nothing else before or after, and in-range field values. -/
def timeParseSimple (s : String) : Except String SimpleTime := do
  let (y, r1) ← get4Digits s.data
  let r2 ← expectChar '-' r1
  let (mo, r3) ← get2Digits r2
  let r4 ← expectChar '-' r3
  let (d, r5) ← get2Digits r4
  let r6 ← expectChar ' ' r5
  let (h, r7) ← get2Digits r6
  let r8 ← expectChar ':' r7
  let (mi, r9) ← get2Digits r8
  let r10 ← expectChar ':' r9
  let (se, r11) ← get2Digits r10
  if !r11.isEmpty then .error "extra text"
  else if mo < 1 || 12 < mo then .error "month out of range"
  else if d < 1 || daysInMonth y mo < d then .error "day out of range"
  else if 23 < h then .error "hour out of range"
  else if 59 < mi then .error "minute out of range"
  else if 59 < se then .error "second out of range"
  else .ok ⟨y, mo, d, h, mi, se⟩

/-- Model of `(*SimpleTime).UnmarshalJSON(b)`.  Per the `json.Unmarshaler`
contract `b` is the raw JSON text of the value — for a JSON string field
that text still carries its surrounding double quotes.  The method passes
`string(b)` to `time.Parse` unchanged, and on error the receiver is not
assigned (the `Except.error` result). -/
def SimpleTime.UnmarshalJSON (b : String) : Except String SimpleTime :=
  timeParseSimple b

/-! ## `trade_handler.go`: `Trade`, `TradePayload`, `handleTrade`

`Trade.Timestamp` holds epoch seconds: the only assignment in the source
is `time.Unix(int64(vv), 0)`.  Go iterates the untyped map in an
unspecified order; the fold below follows the textual order of the last
occurrence of each key, and every observable fact used by a claim (which
fields end up set, whether any error occurs) is order-independent because
distinct keys touch distinct fields. -/

structure Trade where
  Type' : String := ""
  Tid : String := ""
  Amount : Int := 0
  Price : Int := 0
  Instrument : String := ""
  Currency : String := ""
  TradeType : String := ""
  Primary : String := ""
  Properties : String := ""
  Timestamp : Int := 0
deriving DecidableEq

def zeroTrade : Trade := {}

/-- One iteration of the `for k, v := range raw` type-and-key switch
(`trade_handler.go` lines 35–71). -/
def tradeStep (t : Trade) (k : String) (v : Json) : Trade × Option String :=
  match v with
  | .str vv =>
    if k = "type" then ({ t with Type' := vv }, none)
    else if k = "tid" then ({ t with Tid := vv }, none)
    else if k = "item" then ({ t with Instrument := vv }, none)
    else if k = "price_currency" then ({ t with Currency := vv }, none)
    else if k = "trade_type" then ({ t with TradeType := vv }, none)
    else if k = "primary" then ({ t with Primary := vv }, none)
    else if k = "properties" then ({ t with Properties := vv }, none)
    else if k = "amount_int" then
      match parseInt64 vv with
      | .ok n => ({ t with Amount := n }, none)
      | .error e => (t, some e)
    else if k = "price_int" then
      match parseInt64 vv with
      | .ok n => ({ t with Price := n }, none)
      | .error e => (t, some e)
    else (t, none)
  | .num vv => if k = "date" then ({ t with Timestamp := vv }, none) else (t, none)
  | _ => (t, none)

def tradeFold : Trade → List (String × Json) → Trade × Option String
  | t, [] => (t, none)
  | t, kv :: rest =>
    match tradeStep t kv.1 kv.2 with
    | (t', none) => tradeFold t' rest
    | (t', some e) => (t', some e)

/-- Model of `(*Trade).UnmarshalJSON` applied to the parsed value of its
raw argument: `json.Unmarshal(data, &raw)` into a map accepts an object
(last duplicate key wins) or `null` (map left nil, loop body never runs),
and fails on any other shape, leaving the receiver untouched.  The pair
returns the receiver's final state together with the returned error. -/
def Trade.UnmarshalJSON (t : Trade) (v : Json) : Trade × Option String :=
  match v with
  | .obj members => tradeFold t (dedupKeepLast members)
  | .null => (t, none)
  | _ => (t, some "cannot unmarshal value into map")

structure StreamHeader where
  Channel : String := ""
  ChannelName : String := ""
  Op : String := ""
  Origin : String := ""
  Private : String := ""
deriving DecidableEq

def zeroHeader : StreamHeader := {}

def setHeaderField (h : StreamHeader) (k : String) (s : String) : StreamHeader :=
  if k = "channel" then { h with Channel := s }
  else if k = "channel_name" then { h with ChannelName := s }
  else if k = "op" then { h with Op := s }
  else if k = "origin" then { h with Origin := s }
  else if k = "private" then { h with Private := s }
  else h

def isHeaderKey (k : String) : Bool :=
  k == "channel" || k == "channel_name" || k == "op" || k == "origin" || k == "private"

/-- Struct decoding of the header fields: members are processed in input
order; a value of the wrong dynamic kind for a string field records the
first such error but decoding continues (`encoding/json` saves
`UnmarshalTypeError`s and keeps going); `null` leaves the field alone.
Tag matching is modelled case-sensitively — the fallback case-insensitive
match of `encoding/json` is exercised by no claim. -/
def headerFold : StreamHeader → Option String → List (String × Json) → StreamHeader × Option String
  | h, saved, [] => (h, saved)
  | h, saved, (k, v) :: rest =>
    if isHeaderKey k then
      match v with
      | .str s => headerFold (setHeaderField h k s) saved rest
      | .null => headerFold h saved rest
      | _ =>
        headerFold h (if saved.isSome then saved else some "cannot unmarshal value into string") rest
    else headerFold h saved rest

def streamHeaderOfJson : Json → StreamHeader × Option String
  | .obj ms => headerFold {} none ms
  | .null => ({}, none)
  | _ => ({}, some "cannot unmarshal value into StreamHeader")

/-- `TradePayload` embeds `StreamHeader` (field `header` here, its JSON
keys promoted) and holds `Trade` under the `trade` tag. -/
structure TradePayload where
  header : StreamHeader := {}
  trade : Trade := {}
deriving DecidableEq

def zeroPayload : TradePayload := {}

/-- Struct decoding of `TradePayload`: header fields behave as in
`headerFold`; the `trade` member invokes the custom unmarshaler, and an
error returned by an `UnmarshalJSON` aborts the whole decode immediately
with that error, keeping whatever was already populated. -/
def payloadFold : TradePayload → Option String → List (String × Json) → TradePayload × Option String
  | p, saved, [] => (p, saved)
  | p, saved, (k, v) :: rest =>
    if k = "trade" then
      match Trade.UnmarshalJSON p.trade v with
      | (tr, some e) => ({ p with trade := tr }, some e)
      | (tr, none) => payloadFold { p with trade := tr } saved rest
    else if isHeaderKey k then
      match v with
      | .str s => payloadFold { p with header := setHeaderField p.header k s } saved rest
      | .null => payloadFold p saved rest
      | _ =>
        payloadFold p (if saved.isSome then saved else some "cannot unmarshal value into string") rest
    else payloadFold p saved rest

def tradePayloadOfJson : Json → TradePayload × Option String
  | .obj ms => payloadFold {} none ms
  | .null => ({}, none)
  | _ => ({}, some "cannot unmarshal value into TradePayload")

/-- `json.Unmarshal(data, &payload)` for a `TradePayload` target: the
final payload value (possibly partially populated) plus the error. -/
def unmarshalTradePayload (data : String) : TradePayload × Option String :=
  match parseJson data with
  | .error e => ({}, some e)
  | .ok j => tradePayloadOfJson j

/-- Observable channel activity of the dispatcher.  `errorsSend` and
`tradesSend` are the non-blocking send attempts of `handleTrade`
(`select`/`default`: dropped, not blocking, when the buffer is full);
`routed…` records that the raw message was handed to the named decoder;
`fallbackDump` is the `default` branch's diagnostic print of the generic
decode. -/
inductive Effect where
  | errorsSend (e : String) : Effect
  | tradesSend (p : TradePayload) : Effect
  | routedDebug (data : String) : Effect
  | routedTicker (data : String) : Effect
  | routedDepth (data : String) : Effect
  | routedResult (data : String) : Effect
  | fallbackDump (priv : String) (dump : Option Json) : Effect

/-- Model of `(*Client).handleTrade` (`trade_handler.go` lines 75–88).
Note the source structure: after attempting the error send it falls
through and attempts the `Trades` send with the same `payload` value. -/
def handleTrade (data : String) : List Effect :=
  match unmarshalTradePayload data with
  | (p, some e) => [Effect.errorsSend e, Effect.tradesSend p]
  | (p, none) => [Effect.tradesSend p]

/-! ## `gox.go`: header sniffing, dispatch, credentials, signing -/

/-- The header sniff in `handle`: `json.Unmarshal(data, &header)` with
the returned error discarded, so a failed parse leaves the zero header. -/
def sniffHeader (data : String) : StreamHeader :=
  match parseJson data with
  | .error _ => {}
  | .ok j => (streamHeaderOfJson j).1

/-- The generic decode of the `default` branch:
`json.Unmarshal(data, &payload)` into an untyped map, error again
discarded; anything but an object leaves the nil map. -/
def genericDecode (data : String) : Option Json :=
  match parseJson data with
  | .ok (Json.obj ms) => some (Json.obj ms)
  | _ => none

/-- Modelled from the spec: the `handleDebug`, `handleTicker`,
`handleDepth` and `handleResult` decoders are repository code that is not
under `src/` (only their call sites in `handle` are).  Per spec §4.2 each
consumes the raw message and publishes only to its own category channel
or the error channel, so for the dispatcher claims it suffices to record
which decoder the message was routed to.  The `trade` branch uses the
real `handleTrade` from `src/trade_handler.go`. -/
def routeMessage (priv : String) (data : String) : List Effect :=
  if priv = "debug" then [Effect.routedDebug data]
  else if priv = "ticker" then [Effect.routedTicker data]
  else if priv = "trade" then handleTrade data
  else if priv = "depth" then [Effect.routedDepth data]
  else if priv = "result" then [Effect.routedResult data]
  else [Effect.fallbackDump priv (genericDecode data)]

/-- Model of `(*Gox).handle` (`gox.go` lines 214–242): best-effort header
sniff, then the `switch header.Private` dispatch.  The function is total:
no branch fails or stops the surrounding read loop. -/
def handle (data : String) : List Effect :=
  routeMessage (sniffHeader data).Private data

/-- The client's credential state.  `none` is Go's nil slice (the zero
value of the field); `some bs` a non-nil slice with contents `bs` — the
distinction `[]byte(nil) ≠ []byte{}` is exactly what the
`authenticatedSend` guard tests.  Channels and the socket are external
collaborators and are not part of the state. -/
structure Gox where
  key : Option (List Nat)
  secret : Option (List Nat)
deriving DecidableEq

/-- Model of `NewWithConnection` (`gox.go` lines 110–133) minus the
channel allocation: dashes are stripped from the key, which is then
hex-decoded; the secret is base64-decoded; either failure aborts
construction.  Successful decoding always yields non-nil slices. -/
def NewWithConnection (key secret : String) : Except String Gox :=
  match hexDecodeString (String.mk (key.data.filter (fun c => c != '-'))) with
  | .error e => .error e
  | .ok kbytes =>
    match base64DecodeString secret with
    | .error e => .error e
    | .ok sbytes => .ok ⟨some kbytes, some sbytes⟩

/-- Model of `(*Gox).sign`: HMAC-SHA-512 keyed by the stored secret over
the body bytes.  `mac.Write` never fails, so the Go error path is dead. -/
def Gox.sign (g : Gox) (body : List Nat) : List Nat :=
  hmacSha512 (g.secret.getD []) body

/-- The JSON object handed to `conn.WriteJSON`: exactly the four members
`op`, `id`, `call`, `context`. -/
structure Envelope where
  op : String
  id : Option Json
  call : String
  context : String

/-- Model of `(*Gox).authenticatedSend` (`gox.go` lines 185–211): the nil
guard, one `json.Marshal` of the message, an HMAC signature over exactly
those bytes, the `key‖signature‖body` concatenation, its base64 encoding,
and the envelope written to the connection. -/
def Gox.authenticatedSend (g : Gox) (msg : Json) : Except String Envelope :=
  if g.key.isNone || g.secret.isNone then .error "API Key or secret is invalid or missing."
  else
    let req := strBytes (Json.render msg)
    let signedReq := g.sign req
    let requestId := jsonLookup msg "id"
    let fullReq := g.key.getD [] ++ signedReq ++ req
    let encodedReq := base64EncodeString fullReq
    .ok { op := "call", id := requestId, call := encodedReq, context := "mtgox.com" }

/-! ## Concrete claim inputs -/

/-- An object member makes `Trade.UnmarshalJSON` fail exactly when it is a
string-valued `amount_int`/`price_int` whose contents fail integer
parsing. -/
def entryFails : String × Json → Bool
  | (k, Json.str s) =>
    (k == "amount_int" || k == "price_int") &&
      (match parseInt64 s with
       | .error _ => true
       | .ok _ => false)
  | _ => false

def tradeKnownKeys : List String :=
  ["type", "tid", "item", "price_currency", "trade_type", "primary", "properties",
   "amount_int", "price_int", "date"]

/-- The raw bytes of
`(private: "trade", trade: (amount_int: "abc"))` rendered as compact
JSON — a message whose trade payload fails integer parsing. -/
def c1Input : String :=
  Json.render (Json.obj [("private", Json.str "trade"),
    ("trade", Json.obj [("amount_int", Json.str "abc")])])

def c2Msg : Json := Json.obj [("id", Json.str "1")]

/-- The raw JSON text of the string value `2021-05-01 10:00:00`,
surrounding quotes included, exactly as `encoding/json` hands it to an
`UnmarshalJSON` method. -/
def c3QuotedGood : String := Json.render (Json.str "2021-05-01 10:00:00")

def c3QuotedBad : String := Json.render (Json.str "2021/05/01")

/-- A call body with its keys already in `json.Marshal`'s sorted map-key
order. -/
def c4Msg : Json :=
  Json.obj [("call", Json.str "private/info"), ("id", Json.str "42"),
    ("item", Json.str "BTC"), ("nonce", Json.str "1"), ("params", Json.obj [])]

def c5Members : List (String × Json) :=
  [("tid", Json.str "9"), ("weird_key", Json.str "x"), ("amount_int", Json.num 7)]

/-- The raw wire object of the specification's concrete trade scenario. -/
def c7json : Json :=
  Json.obj [("private", Json.str "trade"),
    ("trade", Json.obj [("type", Json.str "trade"), ("tid", Json.str "123"),
      ("amount_int", Json.str "500000000"), ("price_int", Json.str "4200000000"),
      ("item", Json.str "BTC"), ("price_currency", Json.str "USD"),
      ("trade_type", Json.str "ask"), ("date", Json.num 1700000000)])]

def c7Input : String := Json.render c7json

def c8Input : String := Json.render (Json.obj [("private", Json.str "bogus")])

/-! ## Decimal round-trip lemmas -/

theorem digitsVal_from (a : Nat) (cs : List Char) :
    cs.foldl (fun x c => x * 10 + (c.toNat - 48)) a = a * 10 ^ cs.length + digitsVal cs := by
  induction cs generalizing a with
  | nil => simp [digitsVal]
  | cons c cs ih =>
    simp only [List.foldl_cons, digitsVal, List.length_cons]
    rw [ih (a * 10 + (c.toNat - 48)), ih (0 * 10 + (c.toNat - 48))]
    ring

theorem digitsVal_append_digit (cs : List Char) (c : Char) :
    digitsVal (cs ++ [c]) = digitsVal cs * 10 + (c.toNat - 48) := by
  simp [digitsVal, List.foldl_append]

theorem digitChar_toNat {d : Nat} (h : d < 10) : (digitChar d).toNat = 48 + d := by
  interval_cases d <;> rfl

theorem isDigitChar_digitChar {d : Nat} (h : d < 10) : isDigitChar (digitChar d) = true := by
  interval_cases d <;> rfl

theorem natCharsGo_val : ∀ fuel n, n < fuel → digitsVal (natCharsGo fuel n) = n := by
  intro fuel
  induction fuel with
  | zero => intro n h; omega
  | succ fuel ih =>
    intro n h
    by_cases hn : n < 10
    · simp only [natCharsGo, if_pos hn, digitsVal, List.foldl_cons, List.foldl_nil]
      rw [digitChar_toNat hn]
      omega
    · have hd : n / 10 < fuel := by
        have := Nat.div_lt_self (show 0 < n by omega) (show 1 < 10 by omega)
        omega
      simp only [natCharsGo, if_neg hn]
      rw [digitsVal_append_digit, ih _ hd, digitChar_toNat (Nat.mod_lt n (by omega))]
      omega

theorem natCharsGo_digits : ∀ fuel n c, c ∈ natCharsGo fuel n → isDigitChar c = true := by
  intro fuel
  induction fuel with
  | zero => intro n c h; simp [natCharsGo] at h
  | succ fuel ih =>
    intro n c h
    by_cases hn : n < 10
    · simp only [natCharsGo, if_pos hn, List.mem_singleton] at h
      subst h
      exact isDigitChar_digitChar hn
    · simp only [natCharsGo, if_neg hn, List.mem_append, List.mem_singleton] at h
      rcases h with h | h
      · exact ih _ _ h
      · subst h
        exact isDigitChar_digitChar (Nat.mod_lt _ (by omega))

theorem natCharsGo_ne_nil (fuel n : Nat) (h : n < fuel) : natCharsGo fuel n ≠ [] := by
  cases fuel with
  | zero => omega
  | succ fuel => by_cases hn : n < 10 <;> simp [natCharsGo, hn]

theorem digitsVal_natChars (n : Nat) : digitsVal (natChars n) = n :=
  natCharsGo_val _ _ (Nat.lt_succ_self n)

theorem natChars_ne_nil (n : Nat) : natChars n ≠ [] :=
  natCharsGo_ne_nil _ _ (Nat.lt_succ_self n)

theorem natChars_digits {n : Nat} {c : Char} (h : c ∈ natChars n) : isDigitChar c = true :=
  natCharsGo_digits _ _ _ h

theorem parseDigits_of_digits (cs : List Char) (hne : cs ≠ [])
    (hd : ∀ c ∈ cs, isDigitChar c = true) : parseDigits cs = some (digitsVal cs) := by
  have h1 : cs.isEmpty = false := by
    cases cs with
    | nil => exact absurd rfl hne
    | cons a l => rfl
  have h2 : cs.all isDigitChar = true := List.all_eq_true.mpr hd
  simp [parseDigits, h1, h2]

theorem digit_ne_plus {c : Char} (h : isDigitChar c = true) : c ≠ '+' := by
  intro hc
  subst hc
  simp [isDigitChar] at h

theorem digit_ne_minus {c : Char} (h : isDigitChar c = true) : c ≠ '-' := by
  intro hc
  subst hc
  simp [isDigitChar] at h

theorem parseInt64Chars_digits (c : Char) (cs : List Char)
    (hd : ∀ x ∈ c :: cs, isDigitChar x = true)
    (hr : digitsVal (c :: cs) < 2 ^ 63) :
    parseInt64Chars (c :: cs) = .ok ((digitsVal (c :: cs) : Nat) : Int) := by
  have hc := hd c (List.mem_cons_self c cs)
  have hcp := digit_ne_plus hc
  have hcm := digit_ne_minus hc
  have hds : parseDigits (c :: cs) = some (digitsVal (c :: cs)) :=
    parseDigits_of_digits _ (by simp) hd
  have hcond : ¬(c = '+' ∨ c = '-') := by tauto
  simp only [parseInt64Chars, if_neg hcond, hds, if_neg hcm]
  rw [if_neg]
  omega

theorem parseInt64Chars_neg_digits (cs : List Char) (hne : cs ≠ [])
    (hd : ∀ x ∈ cs, isDigitChar x = true)
    (hr : digitsVal cs ≤ 2 ^ 63) :
    parseInt64Chars ('-' :: cs) = .ok (-((digitsVal cs : Nat) : Int)) := by
  have hds : parseDigits cs = some (digitsVal cs) := parseDigits_of_digits _ hne hd
  simp only [parseInt64Chars, Char.reduceEq, or_true, false_or, if_true, ite_true, hds]
  rw [if_neg]
  omega

theorem parseInt64_formatInt64 (n : Int) (h1 : -(2 ^ 63) ≤ n) (h2 : n < 2 ^ 63) :
    parseInt64 (formatInt64 n) = .ok n := by
  by_cases hn : n < 0
  · have hfmt : formatInt64 n = String.mk ('-' :: natChars (-n).toNat) := by
      simp [formatInt64, hn]
    have hrange : digitsVal (natChars (-n).toNat) ≤ 2 ^ 63 := by
      rw [digitsVal_natChars]
      omega
    rw [hfmt]
    show parseInt64Chars ('-' :: natChars (-n).toNat) = .ok n
    rw [parseInt64Chars_neg_digits _ (natChars_ne_nil _) (fun x hx => natChars_digits hx) hrange,
      digitsVal_natChars]
    congr 1
    omega
  · have hnn : (0 : Int) ≤ n := by omega
    have hfmt : formatInt64 n = String.mk (natChars n.toNat) := by
      simp [formatInt64, hn]
    rw [hfmt]
    obtain ⟨c, cs, hcs⟩ : ∃ c cs, natChars n.toNat = c :: cs := by
      cases h : natChars n.toNat with
      | nil => exact absurd h (natChars_ne_nil _)
      | cons c cs => exact ⟨c, cs, rfl⟩
    show parseInt64Chars (natChars n.toNat) = .ok n
    rw [hcs]
    rw [parseInt64Chars_digits c cs (fun x hx => natChars_digits (hcs ▸ hx))
      (by rw [← hcs, digitsVal_natChars]; omega)]
    rw [← hcs, digitsVal_natChars]
    congr 1
    omega

/-! ## Trade decode lemmas -/

theorem tradeStep_err (t : Trade) (kv : String × Json) :
    (tradeStep t kv.1 kv.2).2.isSome = entryFails kv := by
  obtain ⟨k, v⟩ := kv
  cases v with
  | str s =>
    simp only [tradeStep, entryFails]
    split_ifs with h1 h2 h3 h4 h5 h6 h7 h8 h9 <;>
      first
      | (subst_vars; cases hp : parseInt64 s <;> simp [hp]; done)
      | (cases hp : parseInt64 s <;> simp_all)
  | num n =>
    simp only [tradeStep, entryFails]
    split_ifs <;> simp
  | «null» => simp [tradeStep, entryFails]
  | bool b => simp [tradeStep, entryFails]
  | arr l => simp [tradeStep, entryFails]
  | obj ms => simp [tradeStep, entryFails]

theorem tradeFold_err (l : List (String × Json)) :
    ∀ t : Trade, (tradeFold t l).2.isSome = l.any entryFails := by
  induction l with
  | nil => intro t; rfl
  | cons kv rest ih =>
    intro t
    rcases h : tradeStep t kv.1 kv.2 with ⟨t', e⟩
    cases e with
    | none =>
      have he : entryFails kv = false := by rw [← tradeStep_err t kv, h]; rfl
      have hstep : tradeFold t (kv :: rest) = tradeFold t' rest := by
        simp only [tradeFold, h]
      rw [hstep, ih t', List.any_cons, he, Bool.false_or]
    | some err =>
      have he : entryFails kv = true := by rw [← tradeStep_err t kv, h]; rfl
      have hstep : tradeFold t (kv :: rest) = (t', some err) := by
        simp only [tradeFold, h]
      rw [hstep, List.any_cons, he, Bool.true_or]
      rfl

theorem tradeStep_unknown (t : Trade) (k : String) (v : Json) (h : k ∉ tradeKnownKeys) :
    tradeStep t k v = (t, none) := by
  simp only [tradeKnownKeys, List.mem_cons, List.not_mem_nil, or_false, not_or] at h
  obtain ⟨h1, h2, h3, h4, h5, h6, h7, h8, h9, h10⟩ := h
  cases v <;> simp [tradeStep, h1, h2, h3, h4, h5, h6, h7, h8, h9, h10]

theorem tradeStep_amount (t : Trade) (k : String) (v : Json) (h : k ≠ "amount_int") :
    (tradeStep t k v).1.Amount = t.Amount := by
  cases v with
  | str s =>
    simp only [tradeStep]
    split_ifs with h1 h2 h3 h4 h5 h6 h7 h8 <;>
      first
      | rfl
      | exact absurd h8 h
      | (cases hp : parseInt64 s <;> simp [hp])
  | num n =>
    simp only [tradeStep]
    split_ifs <;> rfl
  | «null» => rfl
  | bool b => rfl
  | arr l => rfl
  | obj ms => rfl

theorem tradeFold_amount (l : List (String × Json)) :
    ∀ t : Trade, (∀ kv ∈ l, kv.1 ≠ "amount_int") → (tradeFold t l).1.Amount = t.Amount := by
  induction l with
  | nil => intro t _; rfl
  | cons kv rest ih =>
    intro t h
    rcases hs : tradeStep t kv.1 kv.2 with ⟨t', e⟩
    have hA : t'.Amount = t.Amount := by
      have := tradeStep_amount t kv.1 kv.2 (h kv (List.mem_cons_self kv rest))
      rw [hs] at this
      exact this
    cases e with
    | none =>
      simp only [tradeFold, hs]
      rw [ih t' (fun x hx => h x (List.mem_cons_of_mem kv hx))]
      exact hA
    | some err =>
      simp only [tradeFold, hs]
      exact hA

theorem dedupKeepLast_subset :
    ∀ (l : List (String × Json)) (kv : String × Json), kv ∈ dedupKeepLast l → kv ∈ l := by
  intro l
  induction l with
  | nil => intro kv h; simp [dedupKeepLast] at h
  | cons p rest ih =>
    intro kv h
    obtain ⟨k, v⟩ := p
    by_cases hc : rest.any (fun q => q.1 == k)
    · rw [dedupKeepLast, if_pos hc] at h
      exact List.mem_cons_of_mem _ (ih kv h)
    · rw [dedupKeepLast, if_neg hc] at h
      rcases List.mem_cons.mp h with h | h
      · exact h ▸ List.mem_cons_self _ _
      · exact List.mem_cons_of_mem _ (ih kv h)

/-! ## Signing lemmas -/

theorem sha512Digest_length (st : Sha512State) : (sha512Digest st).length = 64 := by
  simp [sha512Digest, wordBytes]

theorem sha512_length (msg : List Nat) : (sha512 msg).length = 64 := by
  unfold sha512
  exact sha512Digest_length _

theorem hmacSha512_length (key msg : List Nat) : (hmacSha512 key msg).length = 64 := by
  unfold hmacSha512
  exact sha512_length _

/-- The envelope `authenticatedSend` produces for a client whose
credentials decoded (both slices non-nil). -/
theorem authenticatedSend_spec (k s : List Nat) (msg : Json) :
    Gox.authenticatedSend ⟨some k, some s⟩ msg =
      .ok { op := "call", id := jsonLookup msg "id",
            call := base64EncodeString
              (k ++ hmacSha512 s (strBytes (Json.render msg)) ++ strBytes (Json.render msg)),
            context := "mtgox.com" } := by
  simp [Gox.authenticatedSend, Gox.sign]

theorem tradeStep_amount_int (s : String) (n : Int) (h : parseInt64 s = .ok n) (t : Trade) :
    tradeStep t "amount_int" (Json.str s) = ({ t with Amount := n }, none) := by
  simp [tradeStep, h]

theorem tradeStep_price_int (s : String) (n : Int) (h : parseInt64 s = .ok n) (t : Trade) :
    tradeStep t "price_int" (Json.str s) = ({ t with Price := n }, none) := by
  simp [tradeStep, h]

/-! ## Claim theorems -/

/-- Claim C1 (code_bug evidence): for a message whose trade payload fails
decode, `handleTrade` does attempt exactly one error send, but — contrary
to the claim's "processing of that message stops, and zero typed events
are published" — the missing early return after the error `select` makes
it fall through and attempt the `Trades` publish with the partially
populated payload.  At the concrete failing input the effect trace is the
error attempt followed by a `tradesSend` of the garbage payload, and the
decode error is real. -/
theorem c1_trade_decode_error_still_publishes :
    handle c1Input =
      [Effect.errorsSend "invalid syntax",
       Effect.tradesSend { header := { Private := "trade" }, trade := {} }] ∧
    (unmarshalTradePayload c1Input).2 = some "invalid syntax" :=
  ⟨rfl, rfl⟩

/-- Claim C2 (code_bug evidence): constructing with empty key and secret
strings succeeds — `hex.DecodeString ""` and `base64…DecodeString ""`
both return empty non-nil slices — and `authenticatedSend` then passes
the `g.key == nil || g.secret == nil` guard, signs the body with the
empty secret and writes the envelope to the connection, instead of
failing with the configuration error the claim requires. -/
theorem c2_empty_credentials_not_rejected :
    NewWithConnection "" "" = .ok ⟨some [], some []⟩ ∧
    Gox.authenticatedSend ⟨some [], some []⟩ c2Msg =
      .ok { op := "call", id := some (Json.str "1"),
            call := base64EncodeString
              (([] : List Nat) ++ hmacSha512 [] (strBytes (Json.render c2Msg)) ++
                strBytes (Json.render c2Msg)),
            context := "mtgox.com" } := by
  refine ⟨rfl, ?_⟩
  rw [authenticatedSend_spec]
  rfl

/-- Claim C3 (code_bug evidence): `SimpleTime.UnmarshalJSON` receives the
raw JSON value bytes, which for a string field include the surrounding
quotes, and passes them to `time.Parse` unchanged; the quoted bytes of
`2021-05-01 10:00:00` therefore fail to parse even though the unquoted
text parses to exactly the civil time 2021-05-01 10:00:00, contradicting
the claim's success half.  The wrong-layout half (a `2021/05/01` field
fails decode and assigns no time) does hold. -/
theorem c3_simpletime_quotes_break_decode :
    (∃ e, SimpleTime.UnmarshalJSON c3QuotedGood = .error e) ∧
    timeParseSimple "2021-05-01 10:00:00" = .ok ⟨2021, 5, 1, 10, 0, 0⟩ ∧
    (∃ e, SimpleTime.UnmarshalJSON c3QuotedBad = .error e) :=
  ⟨⟨"cannot parse", rfl⟩, rfl, ⟨"cannot parse", rfl⟩⟩

/-- Claim C4 (confirmed): for every client whose credentials decoded and
every call body, `authenticatedSend` writes exactly the envelope
`op = "call"`, `id` = the `id` member of the signed body, `call` = the
base64 encoding of key bytes ‖ HMAC-SHA-512 signature ‖ body bytes, and
the fixed context string; the signature is keyed by the decoded secret
and computed over bytes identical to the body bytes embedded in the
envelope (the body is marshalled once), and its digest is 512 bits
(64 bytes) long. -/
theorem c4_envelope_and_signature (g : Gox) (k s : List Nat) (msg : Json)
    (hk : g.key = some k) (hs : g.secret = some s) :
    Gox.authenticatedSend g msg =
      .ok { op := "call", id := jsonLookup msg "id",
            call := base64EncodeString
              (k ++ hmacSha512 s (strBytes (Json.render msg)) ++ strBytes (Json.render msg)),
            context := "mtgox.com" } ∧
    (hmacSha512 s (strBytes (Json.render msg))).length = 64 := by
  cases g
  cases hk
  cases hs
  exact ⟨authenticatedSend_spec k s msg, hmacSha512_length s _⟩

theorem c4_envelope_and_signature_witness :
    (Gox.mk (some [1, 2]) (some [3, 4])).key = some [1, 2] ∧
    (Gox.mk (some [1, 2]) (some [3, 4])).secret = some [3, 4] ∧
    (Gox.authenticatedSend ⟨some [1, 2], some [3, 4]⟩ c4Msg =
      .ok { op := "call", id := jsonLookup c4Msg "id",
            call := base64EncodeString
              ([1, 2] ++ hmacSha512 [3, 4] (strBytes (Json.render c4Msg)) ++
                strBytes (Json.render c4Msg)),
            context := "mtgox.com" } ∧
      (hmacSha512 [3, 4] (strBytes (Json.render c4Msg))).length = 64) :=
  ⟨rfl, rfl, c4_envelope_and_signature ⟨some [1, 2], some [3, 4]⟩ [1, 2] [3, 4] c4Msg rfl rfl⟩

/-- Claim C5 (confirmed): decoding a JSON object into a `Trade` succeeds
exactly when no present (post-duplicate-elimination) member is a
string-valued `amount_int`/`price_int` that fails 64-bit decimal parsing;
keys outside the decoder's switch leave the trade unchanged with no
error; and a trade whose object never mentions `amount_int` keeps the
zero `Amount`. -/
theorem c5_trade_decode_tolerance :
    (∀ members : List (String × Json),
        (Trade.UnmarshalJSON zeroTrade (Json.obj members)).2 = none ↔
          ∀ kv ∈ dedupKeepLast members, entryFails kv = false) ∧
    (∀ (t : Trade) (k : String) (v : Json), k ∉ tradeKnownKeys → tradeStep t k v = (t, none)) ∧
    (∀ members : List (String × Json), (∀ kv ∈ members, kv.1 ≠ "amount_int") →
        (Trade.UnmarshalJSON zeroTrade (Json.obj members)).1.Amount = 0) := by
  refine ⟨?_, tradeStep_unknown, ?_⟩
  · intro members
    show (tradeFold zeroTrade (dedupKeepLast members)).2 = none ↔ _
    have hiff : (tradeFold zeroTrade (dedupKeepLast members)).2 = none ↔
        (tradeFold zeroTrade (dedupKeepLast members)).2.isSome = false := by
      cases (tradeFold zeroTrade (dedupKeepLast members)).2 <;> simp
    rw [hiff, tradeFold_err, List.any_eq_false]
    simp only [Bool.not_eq_true]
  · intro members h
    show (tradeFold zeroTrade (dedupKeepLast members)).1.Amount = 0
    rw [tradeFold_amount _ zeroTrade
      (fun kv hkv => h kv (dedupKeepLast_subset members kv hkv))]
    rfl

theorem c5_trade_decode_tolerance_witness :
    (∀ kv ∈ dedupKeepLast c5Members, entryFails kv = false) ∧
    (Trade.UnmarshalJSON zeroTrade (Json.obj c5Members)).2 = none :=
  ⟨by decide, (c5_trade_decode_tolerance.1 c5Members).mpr (by decide)⟩

/-- Claim C6 (counterexample): `"+1"` is accepted by
`strconv.ParseInt` inside a valid trade payload (decode succeeds with
`Amount = 1`), but re-encoding 1 yields `"1"`, not the original string,
so the round trip is not lossless for every valid payload. -/
theorem c6_roundtrip_counterexample :
    Trade.UnmarshalJSON zeroTrade (Json.obj [("amount_int", Json.str "+1")]) =
      ({ zeroTrade with Amount := 1 }, none) ∧
    formatInt64 1 ≠ "+1" :=
  ⟨rfl, by decide⟩

/-- Claim C6 (amended, proved): for trade payloads whose
`amount_int`/`price_int` strings are canonical — exactly the decimal
strings the int64 formatter produces (no `+`, no leading zeros, no `-0`)
— decoding recovers the integers and re-encoding them reproduces the
original strings byte for byte. -/
theorem c6_roundtrip_canonical (a p : Int)
    (ha1 : -(2 ^ 63) ≤ a) (ha2 : a < 2 ^ 63) (hp1 : -(2 ^ 63) ≤ p) (hp2 : p < 2 ^ 63) :
    Trade.UnmarshalJSON zeroTrade
        (Json.obj [("amount_int", Json.str (formatInt64 a)),
                   ("price_int", Json.str (formatInt64 p))]) =
      ({ zeroTrade with Amount := a, Price := p }, none) ∧
    formatInt64 ({ zeroTrade with Amount := a, Price := p }).Amount = formatInt64 a ∧
    formatInt64 ({ zeroTrade with Amount := a, Price := p }).Price = formatInt64 p := by
  refine ⟨?_, rfl, rfl⟩
  have hpa := parseInt64_formatInt64 a ha1 ha2
  have hpp := parseInt64_formatInt64 p hp1 hp2
  show tradeFold zeroTrade
      (dedupKeepLast [("amount_int", Json.str (formatInt64 a)),
        ("price_int", Json.str (formatInt64 p))]) = _
  rw [show dedupKeepLast [("amount_int", Json.str (formatInt64 a)),
        ("price_int", Json.str (formatInt64 p))] =
      [("amount_int", Json.str (formatInt64 a)), ("price_int", Json.str (formatInt64 p))]
    from rfl]
  simp [tradeFold, tradeStep_amount_int _ a hpa, tradeStep_price_int _ p hpp]

theorem c6_roundtrip_canonical_witness :
    (-(2 ^ 63) ≤ (5 : Int) ∧ (5 : Int) < 2 ^ 63 ∧
      -(2 ^ 63) ≤ (-7 : Int) ∧ (-7 : Int) < 2 ^ 63) ∧
    (Trade.UnmarshalJSON zeroTrade
        (Json.obj [("amount_int", Json.str (formatInt64 5)),
                   ("price_int", Json.str (formatInt64 (-7)))]) =
      ({ zeroTrade with Amount := 5, Price := -7 }, none) ∧
    formatInt64 ({ zeroTrade with Amount := 5, Price := (-7 : Int) }).Amount = formatInt64 5 ∧
    formatInt64 ({ zeroTrade with Amount := (5 : Int), Price := -7 }).Price = formatInt64 (-7)) :=
  And.intro
    (And.intro (by norm_num) (And.intro (by norm_num) (And.intro (by norm_num) (by norm_num))))
    (c6_roundtrip_canonical 5 (-7) (by norm_num) (by norm_num) (by norm_num) (by norm_num))

/-- Claim C7 (confirmed): the specification's concrete wire object
decodes to exactly the claimed `Trade`: `Amount = 500000000`,
`Price = 4200000000`, `Instrument = "BTC"`, `Currency = "USD"`,
`TradeType = "ask"` and `Timestamp` = epoch second 1700000000; the first
conjunct pins the input bytes down as exactly that raw object. -/
theorem c7_concrete_trade_decode :
    parseJson c7Input = .ok c7json ∧
    unmarshalTradePayload c7Input =
      ({ header := { Private := "trade" },
         trade := { Type' := "trade", Tid := "123", Amount := 500000000, Price := 4200000000,
                    Instrument := "BTC", Currency := "USD", TradeType := "ask",
                    Timestamp := 1700000000 } }, none) :=
  ⟨rfl, rfl⟩

/-- Claim C8 (confirmed): a message whose sniffed `private` discriminator
is none of `debug`, `ticker`, `trade`, `depth`, `result` is routed to the
single `default` branch, whose whole effect is one diagnostic dump of the
generic decode: no typed event on any channel, no error, and `handle`
returns normally (the read loop is untouched). -/
theorem c8_unknown_discriminator_fallback (data : String)
    (h : (sniffHeader data).Private ∉ (["debug", "ticker", "trade", "depth", "result"] : List String)) :
    handle data = [Effect.fallbackDump (sniffHeader data).Private (genericDecode data)] := by
  simp only [List.mem_cons, List.not_mem_nil, or_false, not_or] at h
  obtain ⟨h1, h2, h3, h4, h5⟩ := h
  simp [handle, routeMessage, h1, h2, h3, h4, h5]

theorem c8_unknown_discriminator_fallback_witness :
    (sniffHeader c8Input).Private ∉ (["debug", "ticker", "trade", "depth", "result"] : List String) ∧
    handle c8Input = [Effect.fallbackDump (sniffHeader c8Input).Private (genericDecode c8Input)] :=
  ⟨by decide, c8_unknown_discriminator_fallback c8Input (by decide)⟩

/-- Claim C9 (confirmed): a numeric (rather than string) value under
`amount_int` or `price_int` is silently skipped by the dynamic type
switch — the step leaves every field (in particular the zero
`Amount`/`Price`) untouched and reports no error, and a whole-object
decode with both fields numeric succeeds with the zero trade. -/
theorem c9_numeric_amount_price_ignored :
    (∀ (t : Trade) (n : Int),
        tradeStep t "amount_int" (Json.num n) = (t, none) ∧
        tradeStep t "price_int" (Json.num n) = (t, none)) ∧
    (∀ n m : Int,
        Trade.UnmarshalJSON zeroTrade
            (Json.obj [("amount_int", Json.num n), ("price_int", Json.num m)]) =
          (zeroTrade, none)) := by
  constructor
  · intro t n
    constructor <;> simp [tradeStep]
  · intro n m
    show tradeFold zeroTrade (dedupKeepLast _) = _
    rw [show dedupKeepLast [("amount_int", Json.num n), ("price_int", Json.num m)] =
        [("amount_int", Json.num n), ("price_int", Json.num m)] from rfl]
    simp [tradeFold, tradeStep]

theorem c9_numeric_amount_price_ignored_witness :
    tradeStep zeroTrade "amount_int" (Json.num 42) = (zeroTrade, none) ∧
    Trade.UnmarshalJSON zeroTrade
        (Json.obj [("amount_int", Json.num 42), ("price_int", Json.num 7)]) =
      (zeroTrade, none) :=
  ⟨(c9_numeric_amount_price_ignored.1 zeroTrade 42).1,
    c9_numeric_amount_price_ignored.2 42 7⟩

/-- Claim C10 (confirmed): when the raw bytes fail to parse at all, the
header unmarshal error is discarded, the discriminator stays empty, the
message lands in the fallback dump branch (whose generic decode also
yields nothing), and no error is placed on the `Errors` channel — the
effect trace is exactly one empty diagnostic dump. -/
theorem c10_malformed_header_silent_fallback (data : String) (e : String)
    (h : parseJson data = .error e) :
    handle data = [Effect.fallbackDump "" none] := by
  have hs : sniffHeader data = {} := by simp [sniffHeader, h]
  have hg : genericDecode data = none := by simp [genericDecode, h]
  show routeMessage (sniffHeader data).Private data = _
  rw [hs]
  show [Effect.fallbackDump "" (genericDecode data)] = _
  rw [hg]

theorem c10_malformed_header_silent_fallback_witness :
    parseJson "nope" = .error "invalid literal" ∧
    handle "nope" = [Effect.fallbackDump "" none] :=
  ⟨rfl, c10_malformed_header_silent_fallback "nope" "invalid literal" rfl⟩
